import Mathlib

/-!
Shallow embedding of the pycom0com package (com0com/base.py, com0com/runner.py)
for checking its specification.

Python strings are modelled as Lean `String` / `List Char`; Python dicts
(insertion ordered since 3.7) as association lists `List (String × String)`;
exceptions as an explicit error type returned through `Except`.  The external
subprocess is an input to the model: `runResult` is given the exit code and the
captured combined stdout+stderr text of the invocation.
-/

set_option autoImplicit false

namespace Pycom0com

/-- Python exceptions observable in this package: the exception class
`Com0comException msg` that the package defines, and the builtin
`KeyError key` raised by dict indexing with a missing key. -/
inductive PyError where
  | com0com (msg : String)
  | keyError (key : String)
  deriving DecidableEq, Repr

/-- Model of PortPair from base.py: a namedtuple with fields `a` and `b`,
two port identifier strings. -/
structure PortPair where
  a : String
  b : String
  deriving DecidableEq, Repr

/-- A parameter dict, in insertion order. -/
abbrev Params := List (String × String)

/-! ### Python string primitives used by the code -/

/-- Characters at which Python str.splitlines breaks a line (a carriage
return followed by a newline is handled separately as a single break). -/
def isLineBreakChar (c : Char) : Bool :=
  c = '\n' || c = '\r' || c = '\x0b' || c = '\x0c' ||
  c = '\x1c' || c = '\x1d' || c = '\x1e' || c = '\x85' ||
  c = '\u2028' || c = '\u2029'

/-- Characters removed by Python str.strip with no arguments
(Unicode whitespace). -/
def isPySpace (c : Char) : Bool :=
  c = ' ' || c = '\t' || c = '\n' || c = '\r' || c = '\x0b' || c = '\x0c' ||
  c = '\x1c' || c = '\x1d' || c = '\x1e' || c = '\x1f' || c = '\x85' ||
  c = '\xa0' || c = '\u1680' ||
  (0x2000 ≤ c.toNat && c.toNat ≤ 0x200a) ||
  c = '\u2028' || c = '\u2029' || c = '\u202f' || c = '\u205f' || c = '\u3000'

/-- Worker for `pySplitlines`; `acc` holds the current line reversed. -/
def pySplitlinesAux : List Char → List Char → List (List Char)
  | [], acc => if acc.isEmpty then [] else [acc.reverse]
  | '\r' :: '\n' :: rest, acc => acc.reverse :: pySplitlinesAux rest []
  | c :: rest, acc =>
    if isLineBreakChar c then acc.reverse :: pySplitlinesAux rest []
    else pySplitlinesAux rest (c :: acc)

/-- Python str.splitlines: split at line boundaries, no trailing empty
line for a trailing newline, and the empty string gives no lines. -/
def pySplitlines (s : List Char) : List (List Char) :=
  pySplitlinesAux s []

/-- Python str.strip with no arguments: drop whitespace from both ends. -/
def pyStrip (cs : List Char) : List Char :=
  ((cs.dropWhile isPySpace).reverse.dropWhile isPySpace).reverse

/-- Python str.lstrip with an argument: drop leading characters that
occur in the strip set. -/
def pyLstrip (strip : List Char) (cs : List Char) : List Char :=
  cs.dropWhile (fun c => strip.contains c)

/-- Python string join of a list of items with a separator. -/
def strJoin (sep : String) : List String → String
  | [] => ""
  | [x] => x
  | x :: y :: rest => x ++ sep ++ strJoin sep (y :: rest)

/-- The builtin `int` on a string, restricted to the shapes reachable in
this code: a non-empty string of decimal digits parses to its value, and
anything else models a `ValueError` as `none`. -/
def parseDigits (cs : List Char) : Option Nat :=
  if cs.isEmpty then none
  else if cs.all Char.isDigit then
    some (cs.foldl (fun acc c => 10 * acc + (c.toNat - 48)) 0)
  else none

/-! ### base.py -/

/-- Model of PortPair.pair_number from base.py: apply the builtin `int`
to `self.a.lstrip` with strip set CNCA.  Here `none` models the
`ValueError` raised by `int` on a malformed remainder. -/
def pair_number (p : PortPair) : Option Nat :=
  parseDigits (pyLstrip "CNCA".data p.a.data)

/-- First-match association-list lookup, the behaviour of Python dict
indexing on our ordered-pairs model (keys are unique in a real dict, so
first match is the only match). -/
def dictLookup {α : Type} (k : String) : List (String × α) → Option α
  | [] => none
  | (k2, v) :: rest => if k = k2 then some v else dictLookup k rest

/-- Model of Com0comBase.get_params from base.py:
`return self.list_ports()[port]`.  The backend is represented by its
`list_ports()` result.  A missing key makes dict indexing raise
`KeyError`. -/
def get_params (listPortsResult : List (String × Params)) (port : String) :
    Except PyError Params :=
  match dictLookup port listPortsResult with
  | some ps => Except.ok ps
  | none => Except.error (PyError.keyError port)

/-! ### runner.py: run -/

/-- The binary path: the install directory joined with setupc.exe. -/
def setupcPath (dir : String) : String :=
  dir ++ "\\setupc.exe"

/-- The full argument vector built by Com0comRunner.run: the setupc.exe
path, then the --silent flag, then the given args. -/
def runArgv (dir : String) (args : List String) : List String :=
  setupcPath dir :: "--silent" :: args

/-- Outcome handling of Com0comRunner.run, given the subprocess exit code
and captured combined stdout+stderr (stderr is redirected to stdout).
With check set, a non-zero exit raises CalledProcessError, which run wraps
as a Com0comException whose message is the fixed text followed by the
captured output; otherwise the captured stdout is returned. -/
def runResult (rc : Int) (combinedOut : String) : Except PyError String :=
  if rc = 0 then Except.ok combinedOut
  else Except.error (PyError.com0com ("com0com command failed: " ++ combinedOut))

/-! ### runner.py: install_pair -/

/-- Model of _make_param_str from Com0comRunner.install_pair: the string
`-` for an empty dict, otherwise the comma-join of the `k=v` texts. -/
def make_param_str (params : Params) : String :=
  if params.isEmpty then "-"
  else strJoin "," (params.map (fun kv => kv.1 ++ "=" ++ kv.2))

/-- The argument list install_pair passes to run: the word install
followed by the serialized A-side and B-side parameter dicts. -/
def installPairArgs (aParams bParams : Params) : List String :=
  ["install", make_param_str aParams, make_param_str bParams]

/-- Model of the regex test in the scan: anchored at the start, group 1
is the identifier CNC, then A or B, then one or more digits, and a space
must follow; group 2 is the side character.  The digit class is greedy
and a digit can never satisfy the following literal space, so taking the
maximal digit run is exactly the behaviour of the regex engine. -/
def matchCNC (l : List Char) : Option (String × Char) :=
  match l with
  | c1 :: c2 :: c3 :: s :: rest =>
    if c1 = 'C' ∧ c2 = 'N' ∧ c3 = 'C' ∧ (s = 'A' ∨ s = 'B') then
      if (rest.takeWhile Char.isDigit).isEmpty then none
      else
        match rest.dropWhile Char.isDigit with
        | ' ' :: _ => some (⟨c1 :: c2 :: c3 :: s :: rest.takeWhile Char.isDigit⟩, s)
        | _ => none
    else none
  | _ => none

/-- One loop-body update of the scan in install_pair: on a match assign
the `a` or `b` slot according to group 2 (unconditionally), otherwise
leave both slots unchanged. -/
def scanStep (l : List Char) (a b : Option String) : Option String × Option String :=
  match matchCNC l with
  | some (name, side) => if side = 'A' then (some name, b) else (a, some name)
  | none => (a, b)

/-- The scan loop of install_pair over the stripped lines: update the
slots, then break as soon as both are filled. -/
def scanLoop : List (List Char) → Option String → Option String →
    Option String × Option String
  | [], a, b => (a, b)
  | l :: ls, a, b =>
    if (scanStep l a b).1.isSome && (scanStep l a b).2.isSome then scanStep l a b
    else scanLoop ls (scanStep l a b).1 (scanStep l a b).2

/-- Model of `lines = [line.strip() for line in res.splitlines()]`. -/
def strippedLines (res : String) : List (List Char) :=
  (pySplitlines res.data).map pyStrip

/-- The parsing part of Com0comRunner.install_pair, applied to the output
text returned by run.  The for-else construct raises a Com0comException
with the fixed message exactly when the loop ends without break, i.e.
when some slot is still None after the scan. -/
def installPairParse (res : String) : Except PyError PortPair :=
  match scanLoop (strippedLines res) none none with
  | (some a, some b) => Except.ok ⟨a, b⟩
  | _ => Except.error (PyError.com0com "did not get port name for each port")

/-- All of `install_pair` downstream of the subprocess outcome: the argument
list handed to `run` paired with the result (an error from `run` propagates). -/
def install_pair (aParams bParams : Params) (rc : Int) (combinedOut : String) :
    List String × Except PyError PortPair :=
  (installPairArgs aParams bParams,
   match runResult rc combinedOut with
   | Except.ok res => installPairParse res
   | Except.error e => Except.error e)

/-! ### Definitions taken from the words of the spec, for comparison with the code -/

/-- Spec-side scan (`first match per side wins; do not overwrite`): the
identifier of the first line matching the given side. -/
def specFirstMatch (side : Char) : List (List Char) → Option String
  | [] => none
  | l :: ls =>
    match matchCNC l with
    | some (name, s) => if s = side then some name else specFirstMatch side ls
    | none => specFirstMatch side ls

/-! ### Helper definitions for characterising the scan -/

/-- Last matching identifier for a side over a list of lines, starting from
`acc`. -/
def lastMatchFrom (side : Char) (acc : Option String) : List (List Char) → Option String
  | [] => acc
  | l :: ls =>
    lastMatchFrom side
      (match matchCNC l with
       | some (name, s) => if s = side then some name else acc
       | none => acc) ls

/-- The portion of the lines that `scanLoop` actually visits: everything up
to and including the line at which both slots become filled, or all lines. -/
def scanUpTo : List (List Char) → Option String → Option String → List (List Char)
  | [], _, _ => []
  | l :: ls, a, b =>
    if (scanStep l a b).1.isSome && (scanStep l a b).2.isSome then [l]
    else l :: scanUpTo ls (scanStep l a b).1 (scanStep l a b).2

/-- Whether a line matches the pattern for the given side. -/
def matchesSide (side : Char) (l : List Char) : Bool :=
  match matchCNC l with
  | some (_, s) => s = side
  | none => false

/-- The shape of an identifier captured for a side: the three fixed letters,
the side letter, then a non-empty digit run. -/
def isSideIdent (side : Char) (x : String) : Prop :=
  ∃ ds, ds ≠ [] ∧ ds.all Char.isDigit = true ∧ x = ⟨'C' :: 'N' :: 'C' :: side :: ds⟩

/-- Decimal digit characters of a natural number, with explicit fuel so the
definition is structural and kernel-reducible. -/
def natReprAux : Nat → Nat → List Char
  | 0, _ => []
  | fuel + 1, n =>
    if n < 10 then [Nat.digitChar n]
    else natReprAux fuel (n / 10) ++ [Nat.digitChar (n % 10)]

/-- The canonical decimal digit string of a natural number. -/
def natRepr (n : Nat) : List Char :=
  natReprAux (n + 1) n

/-! ### Lemmas about the pattern match -/

theorem matchCNC_some {l : List Char} {n : String} {s : Char}
    (h : matchCNC l = some (n, s)) :
    (s = 'A' ∨ s = 'B') ∧ isSideIdent s n := by
  cases l with
  | nil => simp [matchCNC] at h
  | cons c1 t1 =>
  cases t1 with
  | nil => simp [matchCNC] at h
  | cons c2 t2 =>
  cases t2 with
  | nil => simp [matchCNC] at h
  | cons c3 t3 =>
  cases t3 with
  | nil => simp [matchCNC] at h
  | cons s0 rest =>
  rw [matchCNC] at h
  split_ifs at h with hguard hempty
  split at h
  · rename_i tail hdrop
    injection h with h1
    injection h1 with hn hs
    obtain ⟨hc1, hc2, hc3, hside⟩ := hguard
    subst hc1; subst hc2; subst hc3; subst hn; subst hs
    refine ⟨hside, rest.takeWhile Char.isDigit, ?_, ?_, rfl⟩
    · intro hnil
      rw [hnil] at hempty
      simp at hempty
    · exact List.all_eq_true.mpr fun c hc => List.mem_takeWhile_imp hc
  · exact absurd h (by simp)

theorem matchesSide_eq_false_of_none {l : List Char} (h : matchCNC l = none)
    (side : Char) : matchesSide side l = false := by
  simp [matchesSide, h]

theorem matchesSide_eq_of_some {l : List Char} {n : String} {s : Char}
    (h : matchCNC l = some (n, s)) (side : Char) :
    matchesSide side l = decide (s = side) := by
  simp [matchesSide, h]

/-! ### Lemmas about the scan loop -/

theorem scanLoop_fst_isSome :
    ∀ (ls : List (List Char)) (a b : Option String), a.isSome = true →
      (scanLoop ls a b).1.isSome = true := by
  intro ls
  induction ls with
  | nil => intro a b ha; simpa [scanLoop] using ha
  | cons l ls ih =>
    intro a b ha
    rw [scanLoop]
    have hab : (scanStep l a b).1.isSome = true := by
      rw [scanStep]
      cases hm : matchCNC l with
      | none => exact ha
      | some ns =>
        obtain ⟨nm, sd⟩ := ns
        by_cases hsd : sd = 'A' <;> simp [hsd, ha]
    split
    · exact hab
    · exact ih _ _ hab

theorem scanLoop_snd_isSome :
    ∀ (ls : List (List Char)) (a b : Option String), b.isSome = true →
      (scanLoop ls a b).2.isSome = true := by
  intro ls
  induction ls with
  | nil => intro a b hb; simpa [scanLoop] using hb
  | cons l ls ih =>
    intro a b hb
    rw [scanLoop]
    have hab : (scanStep l a b).2.isSome = true := by
      rw [scanStep]
      cases hm : matchCNC l with
      | none => exact hb
      | some ns =>
        obtain ⟨nm, sd⟩ := ns
        by_cases hsd : sd = 'A' <;> simp [hsd, hb]
    split
    · exact hab
    · exact ih _ _ hab

theorem scanLoop_fst_none_iff :
    ∀ (ls : List (List Char)) (a b : Option String),
      (scanLoop ls a b).1 = none ↔
        (a = none ∧ ∀ l ∈ ls, matchesSide 'A' l = false) := by
  intro ls
  induction ls with
  | nil => intro a b; simp [scanLoop]
  | cons l ls ih =>
    intro a b
    rw [scanLoop]
    cases hm : matchCNC l with
    | none =>
      have hstep : scanStep l a b = (a, b) := by rw [scanStep, hm]
      have hms : matchesSide 'A' l = false := by simp [matchesSide, hm]
      rw [hstep]
      split
      · rename_i hcond
        have ha : a ≠ none := by
          intro h; rw [h] at hcond; simp at hcond
        simp [ha]
      · rw [ih]
        simp [List.forall_mem_cons, hms]
    | some ns =>
      obtain ⟨nm, sd⟩ := ns
      by_cases hsd : sd = 'A'
      · subst hsd
        have hstep : scanStep l a b = (some nm, b) := by rw [scanStep, hm]; simp
        have hms : matchesSide 'A' l = true := by simp [matchesSide, hm]
        rw [hstep]
        split
        · simp [List.forall_mem_cons, hms]
        · have hsome := scanLoop_fst_isSome ls (some nm) b rfl
          constructor
          · intro h
            rw [h] at hsome
            simp at hsome
          · rintro ⟨-, hall⟩
            have hl := hall l (List.mem_cons_self l ls)
            rw [hms] at hl
            cases hl
      · have hstep : scanStep l a b = (a, some nm) := by rw [scanStep, hm]; simp [hsd]
        have hms : matchesSide 'A' l = false := by simp [matchesSide, hm, hsd]
        rw [hstep]
        split
        · rename_i hcond
          have ha : a ≠ none := by
            intro h; rw [h] at hcond; simp at hcond
          simp [ha]
        · rw [ih]
          simp [List.forall_mem_cons, hms]

theorem scanLoop_snd_none_iff :
    ∀ (ls : List (List Char)) (a b : Option String),
      (scanLoop ls a b).2 = none ↔
        (b = none ∧ ∀ l ∈ ls, matchesSide 'B' l = false) := by
  intro ls
  induction ls with
  | nil => intro a b; simp [scanLoop]
  | cons l ls ih =>
    intro a b
    rw [scanLoop]
    cases hm : matchCNC l with
    | none =>
      have hstep : scanStep l a b = (a, b) := by rw [scanStep, hm]
      have hms : matchesSide 'B' l = false := by simp [matchesSide, hm]
      rw [hstep]
      split
      · rename_i hcond
        have hb : b ≠ none := by
          intro h; rw [h] at hcond; simp at hcond
        simp [hb]
      · rw [ih]
        simp [List.forall_mem_cons, hms]
    | some ns =>
      obtain ⟨nm, sd⟩ := ns
      rcases (matchCNC_some hm).1 with hsd | hsd
      · subst hsd
        have hstep : scanStep l a b = (some nm, b) := by rw [scanStep, hm]; simp
        have hms : matchesSide 'B' l = false := by simp [matchesSide, hm]
        rw [hstep]
        split
        · rename_i hcond
          have hb : b ≠ none := by
            intro h; rw [h] at hcond; simp at hcond
          simp [hb]
        · rw [ih]
          simp [List.forall_mem_cons, hms]
      · subst hsd
        have hstep : scanStep l a b = (a, some nm) := by rw [scanStep, hm]; simp
        have hms : matchesSide 'B' l = true := by simp [matchesSide, hm]
        rw [hstep]
        split
        · simp [List.forall_mem_cons, hms]
        · have hsome := scanLoop_snd_isSome ls a (some nm) rfl
          constructor
          · intro h
            rw [h] at hsome
            simp at hsome
          · rintro ⟨-, hall⟩
            have hl := hall l (List.mem_cons_self l ls)
            rw [hms] at hl
            cases hl

theorem lastMatchFrom_nil (side : Char) (acc : Option String) :
    lastMatchFrom side acc [] = acc := rfl

theorem lastMatchFrom_cons (side : Char) (acc : Option String) (l : List Char)
    (ls : List (List Char)) :
    lastMatchFrom side acc (l :: ls) =
      lastMatchFrom side
        (match matchCNC l with
         | some (name, s) => if s = side then some name else acc
         | none => acc) ls := rfl

theorem lastMatchFrom_cons_none {l : List Char} (h : matchCNC l = none)
    (side : Char) (acc : Option String) (ls : List (List Char)) :
    lastMatchFrom side acc (l :: ls) = lastMatchFrom side acc ls := by
  rw [lastMatchFrom_cons, h]

theorem lastMatchFrom_cons_some {l : List Char} {nm : String} {sd : Char}
    (h : matchCNC l = some (nm, sd)) (side : Char) (acc : Option String)
    (ls : List (List Char)) :
    lastMatchFrom side acc (l :: ls) =
      lastMatchFrom side (if sd = side then some nm else acc) ls := by
  rw [lastMatchFrom_cons, h]

theorem scanLoop_eq_lastMatch :
    ∀ (ls : List (List Char)) (a b : Option String),
      scanLoop ls a b =
        (lastMatchFrom 'A' a (scanUpTo ls a b),
         lastMatchFrom 'B' b (scanUpTo ls a b)) := by
  intro ls
  induction ls with
  | nil => intro a b; simp [scanLoop, scanUpTo, lastMatchFrom]
  | cons l ls ih =>
    intro a b
    rw [scanLoop, scanUpTo]
    cases hm : matchCNC l with
    | none =>
      have hstep : scanStep l a b = (a, b) := by rw [scanStep, hm]
      rw [hstep]
      split
      · rw [lastMatchFrom_cons_none hm, lastMatchFrom_cons_none hm,
            lastMatchFrom_nil, lastMatchFrom_nil]
      · rw [ih, lastMatchFrom_cons_none hm, lastMatchFrom_cons_none hm]
    | some ns =>
      obtain ⟨nm, sd⟩ := ns
      rcases (matchCNC_some hm).1 with hsd | hsd
      · subst hsd
        have hstep : scanStep l a b = (some nm, b) := by rw [scanStep, hm]; simp
        rw [hstep]
        split
        · rw [lastMatchFrom_cons_some hm, lastMatchFrom_cons_some hm,
              lastMatchFrom_nil, lastMatchFrom_nil]
          simp
        · rw [ih, lastMatchFrom_cons_some hm, lastMatchFrom_cons_some hm]
          simp
      · subst hsd
        have hstep : scanStep l a b = (a, some nm) := by rw [scanStep, hm]; simp
        rw [hstep]
        split
        · rw [lastMatchFrom_cons_some hm, lastMatchFrom_cons_some hm,
              lastMatchFrom_nil, lastMatchFrom_nil]
          simp
        · rw [ih, lastMatchFrom_cons_some hm, lastMatchFrom_cons_some hm]
          simp

theorem scanUpTo_leads :
    ∀ (ls : List (List Char)) (a b : Option String),
      ∃ rest, ls = scanUpTo ls a b ++ rest := by
  intro ls
  induction ls with
  | nil => intro a b; exact ⟨[], rfl⟩
  | cons l ls ih =>
    intro a b
    rw [scanUpTo]
    split
    · exact ⟨ls, rfl⟩
    · obtain ⟨rest, hrest⟩ := ih (scanStep l a b).1 (scanStep l a b).2
      refine ⟨rest, ?_⟩
      rw [List.cons_append, ← hrest]

theorem scanLoop_append :
    ∀ (ls extra : List (List Char)) (a b : Option String) (x y : String),
      (a.isSome && b.isSome) = false →
      scanLoop ls a b = (some x, some y) →
      scanLoop (ls ++ extra) a b = (some x, some y) := by
  intro ls
  induction ls with
  | nil =>
    intro extra a b x y hcond h
    rw [scanLoop] at h
    rw [Prod.mk.injEq] at h
    obtain ⟨h1, h2⟩ := h
    subst h1
    subst h2
    simp at hcond
  | cons l ls ih =>
    intro extra a b x y hcond h
    rw [scanLoop] at h
    rw [List.cons_append, scanLoop]
    by_cases hc : ((scanStep l a b).1.isSome && (scanStep l a b).2.isSome) = true
    · rw [if_pos hc] at h
      rw [if_pos hc]
      exact h
    · rw [if_neg hc] at h
      rw [if_neg hc]
      exact ih extra _ _ x y (by simpa using hc) h

theorem scanLoop_fst_some :
    ∀ (ls : List (List Char)) (a b : Option String) (x : String),
      (scanLoop ls a b).1 = some x → a = some x ∨ isSideIdent 'A' x := by
  intro ls
  induction ls with
  | nil =>
    intro a b x h
    rw [scanLoop] at h
    exact Or.inl h
  | cons l ls ih =>
    intro a b x h
    rw [scanLoop] at h
    cases hm : matchCNC l with
    | none =>
      have hstep : scanStep l a b = (a, b) := by rw [scanStep, hm]
      rw [hstep] at h
      split at h
      · exact Or.inl h
      · exact ih a b x h
    | some ns =>
      obtain ⟨nm, sd⟩ := ns
      rcases (matchCNC_some hm).1 with hsd | hsd
      · subst hsd
        have hstep : scanStep l a b = (some nm, b) := by rw [scanStep, hm]; simp
        rw [hstep] at h
        have hident : isSideIdent 'A' nm := (matchCNC_some hm).2
        split at h
        · refine Or.inr ?_
          have hx : nm = x := by
            simpa using h
          rw [← hx]
          exact hident
        · rcases ih (some nm) b x h with heq | hid
          · refine Or.inr ?_
            have hx : nm = x := by
              simpa using heq
            rw [← hx]
            exact hident
          · exact Or.inr hid
      · subst hsd
        have hstep : scanStep l a b = (a, some nm) := by rw [scanStep, hm]; simp
        rw [hstep] at h
        split at h
        · exact Or.inl h
        · exact ih a (some nm) x h

theorem scanLoop_snd_some :
    ∀ (ls : List (List Char)) (a b : Option String) (y : String),
      (scanLoop ls a b).2 = some y → b = some y ∨ isSideIdent 'B' y := by
  intro ls
  induction ls with
  | nil =>
    intro a b y h
    rw [scanLoop] at h
    exact Or.inl h
  | cons l ls ih =>
    intro a b y h
    rw [scanLoop] at h
    cases hm : matchCNC l with
    | none =>
      have hstep : scanStep l a b = (a, b) := by rw [scanStep, hm]
      rw [hstep] at h
      split at h
      · exact Or.inl h
      · exact ih a b y h
    | some ns =>
      obtain ⟨nm, sd⟩ := ns
      rcases (matchCNC_some hm).1 with hsd | hsd
      · subst hsd
        have hstep : scanStep l a b = (some nm, b) := by rw [scanStep, hm]; simp
        rw [hstep] at h
        split at h
        · exact Or.inl h
        · exact ih (some nm) b y h
      · subst hsd
        have hstep : scanStep l a b = (a, some nm) := by rw [scanStep, hm]; simp
        rw [hstep] at h
        have hident : isSideIdent 'B' nm := (matchCNC_some hm).2
        split at h
        · refine Or.inr ?_
          have hy : nm = y := by
            simpa using h
          rw [← hy]
          exact hident
        · rcases ih a (some nm) y h with heq | hid
          · refine Or.inr ?_
            have hy : nm = y := by
              simpa using heq
            rw [← hy]
            exact hident
          · exact Or.inr hid

/-! ### Lemmas about pair_number -/

theorem digitChar_isDigit {d : Nat} (h : d < 10) :
    (Nat.digitChar d).isDigit = true := by
  interval_cases d <;> decide

theorem digitChar_toNat {d : Nat} (h : d < 10) :
    (Nat.digitChar d).toNat = 48 + d := by
  interval_cases d <;> decide

theorem natReprAux_spec :
    ∀ (fuel n : Nat), n < fuel →
      natReprAux fuel n ≠ [] ∧ (natReprAux fuel n).all Char.isDigit = true ∧
      (natReprAux fuel n).foldl (fun acc c => 10 * acc + (c.toNat - 48)) 0 = n := by
  intro fuel
  induction fuel with
  | zero => intro n h; omega
  | succ f ih =>
    intro n h
    rw [natReprAux]
    by_cases h10 : n < 10
    · rw [if_pos h10]
      refine ⟨by simp, by simp [digitChar_isDigit h10], ?_⟩
      simp only [List.foldl_cons, List.foldl_nil]
      rw [digitChar_toNat h10]
      omega
    · rw [if_neg h10]
      have hdiv : n / 10 < f := by
        have h1 : n / 10 < n := Nat.div_lt_self (by omega) (by omega)
        omega
      obtain ⟨hne, hall, hfold⟩ := ih (n / 10) hdiv
      have hmod : n % 10 < 10 := Nat.mod_lt n (by omega)
      refine ⟨by simp, ?_, ?_⟩
      · rw [List.all_append]
        simp [hall, digitChar_isDigit hmod]
      · rw [List.foldl_append, hfold]
        simp only [List.foldl_cons, List.foldl_nil]
        rw [digitChar_toNat hmod]
        omega

theorem parseDigits_natRepr (n : Nat) : parseDigits (natRepr n) = some n := by
  obtain ⟨hne, hall, hfold⟩ := natReprAux_spec (n + 1) n (by omega)
  have h1 : ¬ ((natReprAux (n + 1) n).isEmpty = true) := by
    simp [List.isEmpty_iff, hne]
  rw [natRepr, parseDigits, if_neg h1, if_pos hall, hfold]

theorem isDigit_not_in_CNCA {c : Char} (hc : c.isDigit = true) :
    ("CNCA".data.contains c) = false := by
  by_contra hmem
  rw [Bool.not_eq_false] at hmem
  have hm : c ∈ "CNCA".data := by simpa using hmem
  have hdata : "CNCA".data = ['C', 'N', 'C', 'A'] := rfl
  rw [hdata] at hm
  fin_cases hm <;> exact absurd hc (by decide)

theorem pyLstrip_CNCA_digits {ds : List Char} (hne : ds ≠ [])
    (hall : ds.all Char.isDigit = true) :
    pyLstrip "CNCA".data ('C' :: 'N' :: 'C' :: 'A' :: ds) = ds := by
  obtain ⟨d, tl, rfl⟩ := List.exists_cons_of_ne_nil hne
  have hd : d.isDigit = true :=
    List.all_eq_true.mp hall d (List.mem_cons_self d tl)
  rw [pyLstrip]
  rw [List.dropWhile_cons, if_pos (by decide)]
  rw [List.dropWhile_cons, if_pos (by decide)]
  rw [List.dropWhile_cons, if_pos (by decide)]
  rw [List.dropWhile_cons, if_pos (by decide)]
  rw [List.dropWhile_cons,
      if_neg (by
        show ¬ ("CNCA".data.contains d = true)
        rw [isDigit_not_in_CNCA hd]
        simp)]

theorem pair_number_canonical_aux (n : Nat) (b : String) :
    pair_number ⟨⟨"CNCA".data ++ natRepr n⟩, b⟩ = some n := by
  obtain ⟨hne, hall, -⟩ := natReprAux_spec (n + 1) n (by omega)
  have hne2 : natRepr n ≠ [] := hne
  have hall2 : (natRepr n).all Char.isDigit = true := hall
  have hstep : "CNCA".data ++ natRepr n = 'C' :: 'N' :: 'C' :: 'A' :: natRepr n := rfl
  show parseDigits (pyLstrip "CNCA".data ("CNCA".data ++ natRepr n)) = some n
  rw [hstep, pyLstrip_CNCA_digits hne2 hall2]
  exact parseDigits_natRepr n

/-! ### Lemmas about the error kinds -/

theorem runResult_error_kind {rc : Int} {out : String} {e : PyError}
    (h : runResult rc out = Except.error e) : ∃ msg, e = PyError.com0com msg := by
  rw [runResult] at h
  split_ifs at h
  injection h with h1
  exact ⟨_, h1.symm⟩

theorem installPairParse_error_kind {res : String} {e : PyError}
    (h : installPairParse res = Except.error e) : ∃ msg, e = PyError.com0com msg := by
  rw [installPairParse] at h
  rcases hscan : scanLoop (strippedLines res) none none with ⟨ra, rb⟩
  rw [hscan] at h
  cases ra <;> cases rb <;> simp at h <;> exact ⟨_, h.symm⟩

theorem install_pair_error_kind {aP bP : Params} {rc : Int} {out : String}
    {e : PyError} (h : (install_pair aP bP rc out).2 = Except.error e) :
    ∃ msg, e = PyError.com0com msg := by
  rw [install_pair] at h
  cases hr : runResult rc out with
  | ok res =>
    rw [hr] at h
    exact installPairParse_error_kind h
  | error e2 =>
    rw [hr] at h
    simp at h
    rw [← h]
    exact runResult_error_kind hr

theorem get_params_absent {m : List (String × Params)} {port : String}
    (h : dictLookup port m = none) :
    get_params m port = Except.error (PyError.keyError port) := by
  rw [get_params, h]

/-! ### The claims -/

/-- C1 counterexample: on an output whose stripped lines are two CNCA lines
followed by a CNCB line, the scan of install_pair records the SECOND CNCA
identifier, not the one from the first matching line: the A slot is
overwritten while the B side is still unrecorded. -/
theorem install_scan_overwrite_cex :
    installPairParse "CNCA1 q\nCNCA2 r\nCNCB1 s" =
      Except.ok ⟨"CNCA2", "CNCB1"⟩ ∧
    specFirstMatch 'A' (strippedLines "CNCA1 q\nCNCA2 r\nCNCB1 s") = some "CNCA1" ∧
    ("CNCA2" : String) ≠ "CNCA1" :=
  ⟨rfl, rfl, by decide⟩

/-- C1 (amended): for every output, the identifier recorded for each side is
the one from the last matching line for that side within the scanned portion
of the output (the scan stops at the first line at which both sides are
recorded, so the scanned portion is a prefix of the stripped lines); a later
matching line for a side overwrites an earlier one as long as the other side
is still unrecorded. -/
theorem install_scan_records_last_match (res : String) :
    scanLoop (strippedLines res) none none =
      (lastMatchFrom 'A' none (scanUpTo (strippedLines res) none none),
       lastMatchFrom 'B' none (scanUpTo (strippedLines res) none none)) ∧
    ∃ rest, strippedLines res = scanUpTo (strippedLines res) none none ++ rest :=
  ⟨scanLoop_eq_lastMatch _ none none, scanUpTo_leads _ none none⟩

/-- C2: install_pair raises the domain exception with the fixed message
exactly when at least one side has no matching stripped output line; in
particular an output with a CNCA line but no CNCB line raises it, and an
output yielding both sides returns a pair instead. -/
theorem install_pair_error_iff (res : String) :
    (installPairParse res =
        Except.error (PyError.com0com "did not get port name for each port") ↔
      (∀ l ∈ strippedLines res, matchesSide 'A' l = false) ∨
      (∀ l ∈ strippedLines res, matchesSide 'B' l = false)) ∧
    installPairParse "   CNCA1 PortName=-\nrubbish\n\n" =
      Except.error (PyError.com0com "did not get port name for each port") ∧
    installPairParse "   CNCA1 PortName=-\n   CNCB1 PortName=-\n" =
      Except.ok ⟨"CNCA1", "CNCB1"⟩ := by
  refine ⟨?_, rfl, rfl⟩
  have hiff : installPairParse res =
      Except.error (PyError.com0com "did not get port name for each port") ↔
      ((scanLoop (strippedLines res) none none).1 = none ∨
       (scanLoop (strippedLines res) none none).2 = none) := by
    rcases hscan : scanLoop (strippedLines res) none none with ⟨ra, rb⟩
    rw [installPairParse, hscan]
    cases ra <;> cases rb <;> simp
  rw [hiff, scanLoop_fst_none_iff, scanLoop_snd_none_iff]
  simp

/-- C3: with two empty parameter dicts, install_pair hands run the argument
list of install and two dashes, and on the given output returns the
CNCA1/CNCB1 pair. -/
theorem install_pair_empty_params :
    install_pair [] [] 0 "   CNCA1 PortName=-\n   CNCB1 PortName=-\nrubbish\n\n" =
      (["install", "-", "-"], Except.ok ⟨"CNCA1", "CNCB1"⟩) := rfl

/-- C4: parameter serialization maps the empty dict to the dash placeholder
and every non-empty dict to the comma-joined key=value pairs in iteration
order. -/
theorem make_param_str_spec :
    make_param_str [] = "-" ∧
    make_param_str [("foo", "bar")] = "foo=bar" ∧
    make_param_str [("aa", "bb"), ("cc", "dd")] = "aa=bb,cc=dd" ∧
    ∀ (k v : String) (rest : Params),
      make_param_str ((k, v) :: rest) =
        strJoin "," (((k, v) :: rest).map (fun kv => kv.1 ++ "=" ++ kv.2)) := by
  refine ⟨rfl, rfl, rfl, ?_⟩
  intro k v rest
  simp [make_param_str]

/-- C5: run builds the argument vector of binary path, the silent flag and
the command args; a non-zero exit raises the domain exception with the
captured combined output embedded in the message, and a zero exit returns
the raw output unchanged. -/
theorem run_contract (dir : String) (args : List String) (rc : Int) (out : String) :
    runArgv dir args = [setupcPath dir, "--silent"] ++ args ∧
    (rc ≠ 0 → ∃ pre, runResult rc out = Except.error (PyError.com0com (pre ++ out))) ∧
    (rc = 0 → runResult rc out = Except.ok out) := by
  refine ⟨rfl, ?_, ?_⟩
  · intro h
    refine ⟨"com0com command failed: ", ?_⟩
    rw [runResult, if_neg h]
  · intro h
    rw [runResult, if_pos h]

/-- C5 witness: a failing invocation with captured text embeds that text in
the message, and a succeeding one returns its output unchanged. -/
theorem run_contract_witness :
    (∃ pre, runResult 1 "error" = Except.error (PyError.com0com (pre ++ "error"))) ∧
    runResult 0 "output text" = Except.ok "output text" :=
  ⟨(run_contract "C:\\com0com" ["list"] 1 "error").2.1 (by decide),
   (run_contract "C:\\com0com" ["list"] 0 "output text").2.2 rfl⟩

/-- C6: get_params returns exactly the entry of the list_ports result for a
port present there and fails for an absent one. -/
theorem get_params_spec (m : List (String × Params)) (port : String) :
    (∀ ps, dictLookup port m = some ps → get_params m port = Except.ok ps) ∧
    (dictLookup port m = none → ∃ e, get_params m port = Except.error e) := by
  constructor
  · intro ps h
    rw [get_params, h]
  · intro h
    exact ⟨PyError.keyError port, get_params_absent h⟩

/-- C6 witness: the dummy backend of the tests. -/
theorem get_params_spec_witness :
    get_params [("CNCA1", [("foo", "aaa")]), ("CNCB1", [("foo", "bbb")])] "CNCA1" =
      Except.ok [("foo", "aaa")] ∧
    ∃ e, get_params [("CNCA1", [("foo", "aaa")]), ("CNCB1", [("foo", "bbb")])] "COM7" =
      Except.error e :=
  ⟨(get_params_spec [("CNCA1", [("foo", "aaa")]), ("CNCB1", [("foo", "bbb")])]
      "CNCA1").1 [("foo", "aaa")] rfl,
   (get_params_spec [("CNCA1", [("foo", "aaa")]), ("CNCB1", [("foo", "bbb")])]
      "COM7").2 rfl⟩

/-- C7 counterexample: get_params on a port absent from the list_ports
result fails with the builtin KeyError, which is not the domain
exception. -/
theorem get_params_error_kind_cex :
    get_params [("CNCA1", [("foo", "aaa")]), ("CNCB1", [("foo", "bbb")])] "CNCA9" =
      Except.error (PyError.keyError "CNCA9") ∧
    ∀ msg, PyError.keyError "CNCA9" ≠ PyError.com0com msg :=
  ⟨rfl, fun _ h => by cases h⟩

/-- C7 (amended): the failures the package itself signals - from run and
from the install_pair output scan - are all the single domain exception
kind carrying a message; but get_params with an absent port instead fails
with the builtin KeyError of dict indexing. -/
theorem error_kinds_amended :
    (∀ (rc : Int) (out : String) (e : PyError), runResult rc out = Except.error e →
      ∃ msg, e = PyError.com0com msg) ∧
    (∀ (res : String) (e : PyError), installPairParse res = Except.error e →
      ∃ msg, e = PyError.com0com msg) ∧
    (∀ (aP bP : Params) (rc : Int) (out : String) (e : PyError),
      (install_pair aP bP rc out).2 = Except.error e →
      ∃ msg, e = PyError.com0com msg) ∧
    (∀ (m : List (String × Params)) (port : String), dictLookup port m = none →
      get_params m port = Except.error (PyError.keyError port)) :=
  ⟨fun _ _ _ h => runResult_error_kind h,
   fun _ _ h => installPairParse_error_kind h,
   fun _ _ _ _ _ h => install_pair_error_kind h,
   fun _ _ h => get_params_absent h⟩

/-- C7 amended witness: concrete applications of the error-kind theorem. -/
theorem error_kinds_amended_witness :
    (∃ msg, PyError.com0com "com0com command failed: boom" = PyError.com0com msg) ∧
    get_params [("CNCA1", [])] "CNCB2" = Except.error (PyError.keyError "CNCB2") :=
  ⟨error_kinds_amended.1 1 "boom" (PyError.com0com "com0com command failed: boom") rfl,
   error_kinds_amended.2.2.2 [("CNCA1", [])] "CNCB2" rfl⟩

/-- C8: once both sides are recorded the scan stops, so appending further
lines never changes a successful result; and the first component of a
returned pair is always a CNCA identifier and the second a CNCB identifier,
whatever order the two appeared in the output. -/
theorem install_scan_stop_and_sides (lines extra : List (List Char)) (x y : String)
    (h : scanLoop lines none none = (some x, some y)) :
    scanLoop (lines ++ extra) none none = (some x, some y) ∧
    isSideIdent 'A' x ∧ isSideIdent 'B' y := by
  refine ⟨scanLoop_append lines extra none none x y rfl h, ?_, ?_⟩
  · have h1 : (scanLoop lines none none).1 = some x := by rw [h]
    rcases scanLoop_fst_some lines none none x h1 with heq | hid
    · cases heq
    · exact hid
  · have h2 : (scanLoop lines none none).2 = some y := by rw [h]
    rcases scanLoop_snd_some lines none none y h2 with heq | hid
    · cases heq
    · exact hid

/-- C8 witness: an output listing the CNCB line before the CNCA line still
yields the CNCA identifier first, and appending a further CNCA line does
not change the result. -/
theorem install_scan_stop_and_sides_witness :
    scanLoop (strippedLines "CNCB1 x\nCNCA1 y" ++ strippedLines "CNCA9 z")
      none none = (some "CNCA1", some "CNCB1") :=
  (install_scan_stop_and_sides (strippedLines "CNCB1 x\nCNCA1 y")
    (strippedLines "CNCA9 z") "CNCA1" "CNCB1" rfl).1

/-- C9: for a first component of CNCA followed by the decimal digits of a
positive n, pair_number is n, whatever the second component is; and
pair_number depends only on the first component, so a mismatching suffix on
the second component never affects it. -/
theorem pair_number_spec (n : Nat) (_hpos : 0 < n) (b : String) :
    pair_number ⟨⟨"CNCA".data ++ natRepr n⟩, b⟩ = some n ∧
    ∀ (a b1 b2 : String), pair_number ⟨a, b1⟩ = pair_number ⟨a, b2⟩ :=
  ⟨pair_number_canonical_aux n b, fun _ _ _ => rfl⟩

/-- C9 witness: the CNCA1/CNCB1 pair has pair number 1. -/
theorem pair_number_spec_witness :
    pair_number ⟨⟨"CNCA".data ++ natRepr 1⟩, "CNCB1"⟩ = some 1 ∧
    (⟨"CNCA".data ++ natRepr 1⟩ : String) = "CNCA1" :=
  ⟨(pair_number_spec 1 (by decide) "CNCB1").1, rfl⟩

/-- C10: serialization embeds keys and values verbatim with no validation
or escaping, so a value containing a comma or an equals sign collides with
a correspondingly split dict: the serialization of non-empty dicts is not
injective. -/
theorem make_param_str_no_validation :
    (∀ k v : String, make_param_str [(k, v)] = k ++ "=" ++ v) ∧
    make_param_str [("a", "b,c=d")] = make_param_str [("a", "b"), ("c", "d")] ∧
    ([("a", "b,c=d")] : Params) ≠ [("a", "b"), ("c", "d")] ∧
    make_param_str [("a", "b,c=d")] = "a=b,c=d" := by
  refine ⟨?_, rfl, by decide, rfl⟩
  intro k v
  simp [make_param_str, strJoin]

end Pycom0com
